/-
  Verification of `scripts/log_analysis.py` (Log-Analysis-Script).

  Shallow embedding: a log file is modelled as `Option (List String)` — `none` when
  opening the file raises (`FileNotFoundError` / any other read error, which every
  pass catches at its boundary), `some lines` otherwise.  Python's
  `collections.Counter` is an insertion-ordered map, modelled as an association
  list `List (String × Nat)` in first-insertion order; `Counter.most_common()`
  (CPython: `sorted(items, key=count, reverse=True)`, a stable sort) and
  `most_common(1)` (`heapq.nlargest`, which breaks ties towards the earlier
  element) are modelled with a stable insertion sort on the descending count
  order — stable sorts of the same preorder coincide, so this is the same list.
-/
import Mathlib

set_option linter.unusedVariables false
set_option maxRecDepth 100000

namespace LogAnalysis

open List

/-! ### Python string primitives -/

/-- Test whether the char list `cs` starts with `pat`. -/
def leadsWith : List Char → List Char → Bool
  | [], _ => true
  | _ :: _, [] => false
  | p :: ps, c :: cs => p == c && leadsWith ps cs

/-- Test whether `pat` occurs contiguously somewhere in `cs`
(Python's `pat in line`). -/
def containsSeq (pat : List Char) : List Char → Bool
  | [] => leadsWith pat []
  | c :: rest => leadsWith pat (c :: rest) || containsSeq pat rest

/-- First whitespace-delimited token of a line: Python's `line.split()[0]`,
`none` when `split()` is empty (the `IndexError` branch). -/
def firstToken (line : String) : Option String :=
  match line.data.dropWhile Char.isWhitespace with
  | [] => none
  | c :: cs => some ⟨(c :: cs).takeWhile (fun a => !a.isWhitespace)⟩

/-! ### Counter (insertion-ordered tally) -/

/-- Model of `counter[k] += 1`: increment in place, or append a fresh key at the
end (Python dicts preserve insertion order). -/
def bump (t : List (String × Nat)) (k : String) : List (String × Nat) :=
  match t with
  | [] => [(k, 1)]
  | (k', c) :: rest => if k' = k then (k', c + 1) :: rest else (k', c) :: bump rest k

/-- Build a Counter from a key sequence. -/
def tallyOf (ks : List String) : List (String × Nat) :=
  ks.foldl bump []

/-- Insert an item into a descending-by-count list: it goes in front of the
first item whose count is `≤` its own, i.e. after every strictly larger count
and before every already-placed equal count — so sorting with it is stable. -/
def stableInsert (x : String × Nat) : List (String × Nat) → List (String × Nat)
  | [] => [x]
  | y :: ys => if y.2 ≤ x.2 then x :: y :: ys else y :: stableInsert x ys

/-- Model of `Counter.most_common()`: stable sort of the items by count,
descending. -/
def most_common : List (String × Nat) → List (String × Nat)
  | [] => []
  | x :: xs => stableInsert x (most_common xs)

/-! ### The regular expression `\"(?:GET|POST|PUT|DELETE) (.*?) HTTP` -/

def httpMark : List Char := " HTTP".data

/-- The lazy group `(.*?)` followed by the literal ` HTTP`: the shortest chunk of
non-newline characters after which ` HTTP` follows. -/
def findCapture : List Char → Option (List Char)
  | [] => none
  | c :: rest =>
    if leadsWith httpMark (c :: rest) then some []
    else if c = '\n' then none
    else (findCapture rest).map (c :: ·)

/-- The method alternatives, each with the literal space that follows the group. -/
def methods : List (List Char) := ["GET ".data, "POST ".data, "PUT ".data, "DELETE ".data]

/-- Try to match the whole pattern at the current position. -/
def matchAt (cs : List Char) : Option String :=
  match cs with
  | '"' :: rest =>
    match methods.find? (fun m => leadsWith m rest) with
    | some m => (findCapture (rest.drop m.length)).map (fun l => ⟨l⟩)
    | none => none
  | _ => none

/-- Model of `re.search`: leftmost position at which the pattern matches, with
the lazy capture resolved minimally there. -/
def searchEndpoint : List Char → Option String
  | [] => none
  | c :: rest =>
    match matchAt (c :: rest) with
    | some s => some s
    | none => searchEndpoint rest

/-! ### The three aggregation passes -/

/-- The check `'401' in line or 'Invalid credentials' in line`. -/
def isFailLine (line : String) : Bool :=
  containsSeq "401".data line.data || containsSeq "Invalid credentials".data line.data

/-- Key sequence tallied by `count_requests_per_ip`: the first token of every
line that has one (lines without one are skipped with a diagnostic). -/
def requestKeys (lines : List String) : List String :=
  lines.filterMap firstToken

/-- Key sequence tallied by `detect_suspicious_activity`: the first token of
every failure-classified line that has one. -/
def failKeys (lines : List String) : List String :=
  lines.filterMap (fun l => if isFailLine l then firstToken l else none)

/-- Endpoint sequence tallied by `most_frequent_endpoint`. -/
def endpointKeys (lines : List String) : List String :=
  lines.filterMap (fun l => searchEndpoint l.data)

/-- Model of `count_requests_per_ip`: per-IP tally, ranked by `most_common()`;
empty on a missing/unreadable file. -/
def count_requests_per_ip (file : Option (List String)) : List (String × Nat) :=
  match file with
  | none => []
  | some lines => most_common (tallyOf (requestKeys lines))

/-- Model of `most_frequent_endpoint`: `most_common(1)[0]` of the endpoint tally
when the counter is nonempty, else the sentinel `("N/A", 0)`; also the sentinel
on a missing/unreadable file. -/
def most_frequent_endpoint (file : Option (List String)) : String × Nat :=
  match file with
  | none => ("N/A", 0)
  | some lines => (most_common (tallyOf (endpointKeys lines))).headD ("N/A", 0)

/-- Model of `detect_suspicious_activity`: items of the failed-login tally whose
count is strictly above the threshold (kept in insertion order); empty on a
missing/unreadable file.  The threshold is a Python `int`. -/
def detect_suspicious_activity (file : Option (List String)) (threshold : Int) :
    List (String × Nat) :=
  match file with
  | none => []
  | some lines =>
    (tallyOf (failKeys lines)).filter (fun p => threshold < (p.2 : Int))

/-! ### Quick sanity checks of the embedding -/

example : firstToken "10.0.0.5 - - 401" = some "10.0.0.5" := by decide
example : firstToken "   " = none := by decide
example : isFailLine "10.0.0.5 - - 401" = true := by decide
example : isFailLine "x Invalid credentials" = true := by decide
example : isFailLine "x invalid credentials" = false := by decide
example : searchEndpoint "127.0.0.1 - - \"GET /home HTTP/1.1\" 200".data = some "/home" := by decide
example : searchEndpoint "no request here".data = none := by decide
example : tallyOf ["a", "b", "a"] = [("a", 2), ("b", 1)] := by decide
example : most_common [("a", 1), ("b", 2)] = [("b", 2), ("a", 1)] := by rfl
example : count_requests_per_ip (some ["a x", "b y", "a z"]) = [("a", 2), ("b", 1)] := by rfl
example : most_frequent_endpoint (some ["1.1.1.1 \"GET /a HTTP/1.1\"", "2.2.2.2 \"GET /a HTTP/1.1\"", "3.3.3.3 \"POST /b HTTP/1.0\""]) = ("/a", 2) := by rfl
example : detect_suspicious_activity (some ["a 401", "a 401", "b 401"]) 1 = [("a", 2)] := by rfl

/-! ### Tally lemmas: a Counter maps each key to its multiplicity in the key
sequence, in first-occurrence order. -/

def keysOf (t : List (String × Nat)) : List String := t.map Prod.fst

@[simp] lemma keysOf_nil : keysOf [] = [] := rfl

@[simp] lemma keysOf_cons (p : String × Nat) (rest : List (String × Nat)) :
    keysOf (p :: rest) = p.1 :: keysOf rest := rfl

lemma keysOf_bump (t : List (String × Nat)) (k : String) :
    keysOf (bump t k) = if k ∈ keysOf t then keysOf t else keysOf t ++ [k] := by
  induction t with
  | nil => simp [bump]
  | cons p rest ih =>
    obtain ⟨k', c⟩ := p
    by_cases h : k' = k
    · subst h; simp [bump]
    · rw [show bump ((k', c) :: rest) k = (k', c) :: bump rest k by simp [bump, h]]
      rw [keysOf_cons, keysOf_cons, ih]
      by_cases hm : k ∈ keysOf rest
      · simp [hm, Ne.symm h]
      · simp [hm, Ne.symm h]

lemma mem_keysOf_bump {t : List (String × Nat)} {k j : String} :
    j ∈ keysOf (bump t k) ↔ j = k ∨ j ∈ keysOf t := by
  rw [keysOf_bump]
  by_cases h : k ∈ keysOf t
  · simp only [if_pos h]
    constructor
    · exact Or.inr
    · rintro (rfl | hj)
      · exact h
      · exact hj
  · simp [if_neg h, or_comm]

lemma lookup_isSome_iff (t : List (String × Nat)) (k : String) :
    (t.lookup k).isSome = true ↔ k ∈ keysOf t := by
  induction t with
  | nil => simp [keysOf]
  | cons p rest ih =>
    obtain ⟨k', c⟩ := p
    by_cases h : k = k'
    · subst h; simp [List.lookup]
    · simp [List.lookup, beq_false_of_ne h, h, ih]

lemma lookup_bump_self (t : List (String × Nat)) (k : String) :
    (bump t k).lookup k = some ((t.lookup k).getD 0 + 1) := by
  induction t with
  | nil => simp [bump, List.lookup]
  | cons p rest ih =>
    obtain ⟨k', c⟩ := p
    by_cases h : k' = k
    · subst h; simp [bump, List.lookup]
    · simp [bump, h, List.lookup, beq_false_of_ne (Ne.symm h), ih]

lemma lookup_bump_ne (t : List (String × Nat)) {k k' : String} (h : k' ≠ k) :
    (bump t k').lookup k = t.lookup k := by
  induction t with
  | nil => simp [bump, List.lookup, beq_false_of_ne (Ne.symm h)]
  | cons p rest ih =>
    obtain ⟨k'', c⟩ := p
    by_cases h2 : k'' = k'
    · subst h2; simp [bump, List.lookup, beq_false_of_ne (Ne.symm h)]
    · by_cases h3 : k = k''
      · subst h3; simp [bump, h2, List.lookup]
      · simp [bump, h2, List.lookup, beq_false_of_ne h3, ih]

lemma lookup_foldl_bump (ks : List String) : ∀ (t : List (String × Nat)) (k : String),
    (List.foldl bump t ks).lookup k =
      if k ∈ keysOf t ∨ k ∈ ks then some ((t.lookup k).getD 0 + ks.count k) else none := by
  induction ks with
  | nil =>
    intro t k
    simp only [List.foldl_nil, List.not_mem_nil, or_false, List.count_nil]
    by_cases h : k ∈ keysOf t
    · rw [if_pos h]
      obtain ⟨v, hv⟩ := Option.isSome_iff_exists.mp ((lookup_isSome_iff t k).mpr h)
      simp [hv]
    · rw [if_neg h]
      have := (lookup_isSome_iff t k).not.mpr h  -- hmm
      cases hv : t.lookup k with
      | none => rfl
      | some v => exact absurd ((lookup_isSome_iff t k).mp (by simp [hv])) h
  | cons j ks ih =>
    intro t k
    rw [List.foldl_cons, ih]
    by_cases h : k = j
    · subst h
      have hmem : k ∈ keysOf (bump t k) := mem_keysOf_bump.mpr (Or.inl rfl)
      rw [if_pos (Or.inl hmem), lookup_bump_self]
      simp [List.count_cons_self]
      omega
    · rw [lookup_bump_ne t (Ne.symm h)]
      have hmem : k ∈ keysOf (bump t j) ↔ k ∈ keysOf t := by
        rw [mem_keysOf_bump]; simp [h]
      have hcnt : (j :: ks).count k = ks.count k := List.count_cons_of_ne h ks
      by_cases h2 : k ∈ keysOf t ∨ k ∈ ks
      · rw [if_pos (by tauto), if_pos (by rcases h2 with h2 | h2; exacts [Or.inl h2, Or.inr (by simp [h, h2])]), hcnt]
      · rw [if_neg (by tauto), if_neg (by rintro (hk | hk); exacts [h2 (Or.inl hk), h2 (Or.inr (by simpa [h] using hk))])]

lemma lookup_tallyOf (ks : List String) (k : String) :
    (tallyOf ks).lookup k = if k ∈ ks then some (ks.count k) else none := by
  rw [tallyOf, lookup_foldl_bump]
  simp [keysOf, List.lookup]

lemma lookup_tallyOf_getD (ks : List String) (k : String) :
    ((tallyOf ks).lookup k).getD 0 = ks.count k := by
  rw [lookup_tallyOf]
  by_cases h : k ∈ ks
  · simp [h]
  · simp [h, List.count_eq_zero_of_not_mem h]

lemma mem_keysOf_tallyOf {ks : List String} {k : String} :
    k ∈ keysOf (tallyOf ks) ↔ k ∈ ks := by
  rw [← lookup_isSome_iff, lookup_tallyOf]
  by_cases h : k ∈ ks <;> simp [h]

lemma nodup_keysOf_bump {t : List (String × Nat)} (h : (keysOf t).Nodup) (k : String) :
    (keysOf (bump t k)).Nodup := by
  rw [keysOf_bump]
  by_cases hm : k ∈ keysOf t
  · simpa [hm] using h
  · simp only [if_neg hm]
    simp [List.nodup_append, h, hm]

lemma nodup_keysOf_foldl (ks : List String) :
    ∀ {t : List (String × Nat)}, (keysOf t).Nodup → (keysOf (List.foldl bump t ks)).Nodup := by
  induction ks with
  | nil => intro t h; simpa using h
  | cons j ks ih => intro t h; exact ih (nodup_keysOf_bump h j)

lemma nodup_keysOf_tallyOf (ks : List String) : (keysOf (tallyOf ks)).Nodup :=
  nodup_keysOf_foldl ks (by simp)

lemma mem_of_lookup {t : List (String × Nat)} {k : String} {c : Nat}
    (h : t.lookup k = some c) : (k, c) ∈ t := by
  induction t with
  | nil => simp [List.lookup] at h
  | cons p rest ih =>
    obtain ⟨k', c'⟩ := p
    by_cases hk : k = k'
    · subst hk
      simp [List.lookup] at h
      simp [h]
    · simp [List.lookup, beq_false_of_ne hk] at h
      exact List.mem_cons_of_mem _ (ih h)

lemma lookup_of_mem {t : List (String × Nat)} (hnd : (keysOf t).Nodup) {k : String} {c : Nat}
    (h : (k, c) ∈ t) : t.lookup k = some c := by
  induction t with
  | nil => simp at h
  | cons p rest ih =>
    obtain ⟨k', c'⟩ := p
    rcases List.mem_cons.mp h with heq | hmem
    · cases heq
      simp [List.lookup]
    · have hk : k ≠ k' := by
        rintro rfl
        have : k ∈ keysOf rest := List.mem_map.mpr ⟨(k, c), hmem, rfl⟩
        simp [keysOf_cons] at hnd
        exact hnd.1 this
      simp [List.lookup, beq_false_of_ne hk]
      exact ih (by simp [keysOf_cons] at hnd; exact hnd.2) hmem

/-- Characterization of the Counter's items: `(k, c)` is an item iff `k` occurs
in the key sequence and `c` is its multiplicity there. -/
lemma mem_tallyOf {ks : List String} {k : String} {c : Nat} :
    (k, c) ∈ tallyOf ks ↔ k ∈ ks ∧ c = ks.count k := by
  constructor
  · intro h
    have := lookup_of_mem (nodup_keysOf_tallyOf ks) h
    rw [lookup_tallyOf] at this
    by_cases hm : k ∈ ks
    · rw [if_pos hm] at this
      exact ⟨hm, (Option.some.injEq .. ▸ this).symm⟩
    · rw [if_neg hm] at this; cases this
  · rintro ⟨hm, rfl⟩
    exact mem_of_lookup (by rw [lookup_tallyOf, if_pos hm])

/-! ### Sum of counts -/

def sumCounts (t : List (String × Nat)) : Nat := (t.map Prod.snd).sum

lemma sumCounts_bump (t : List (String × Nat)) (k : String) :
    sumCounts (bump t k) = sumCounts t + 1 := by
  induction t with
  | nil => simp [bump, sumCounts]
  | cons p rest ih =>
    obtain ⟨k', c⟩ := p
    by_cases h : k' = k
    · subst h; simp [bump, sumCounts]; omega
    · simp [bump, h, sumCounts] at ih ⊢; omega

lemma sumCounts_foldl (ks : List String) :
    ∀ t : List (String × Nat), sumCounts (List.foldl bump t ks) = sumCounts t + ks.length := by
  induction ks with
  | nil => intro t; simp
  | cons j ks ih =>
    intro t
    rw [List.foldl_cons, ih, sumCounts_bump]
    simp; omega

lemma sumCounts_tallyOf (ks : List String) : sumCounts (tallyOf ks) = ks.length := by
  rw [tallyOf, sumCounts_foldl]; simp [sumCounts]

/-! ### Stable sort lemmas -/

lemma stableInsert_perm (x : String × Nat) (l : List (String × Nat)) :
    stableInsert x l ~ x :: l := by
  induction l with
  | nil => rfl
  | cons y ys ih =>
    rw [stableInsert]
    by_cases h : y.2 ≤ x.2
    · simp [h]
    · simp only [if_neg h]
      calc y :: stableInsert x ys ~ y :: x :: ys := (ih.cons y)
        _ ~ x :: y :: ys := List.Perm.swap x y ys

lemma most_common_perm (t : List (String × Nat)) : most_common t ~ t := by
  induction t with
  | nil => rfl
  | cons x xs ih => exact (stableInsert_perm x (most_common xs)).trans (ih.cons x)

lemma pairwise_stableInsert {l : List (String × Nat)}
    (h : l.Pairwise (fun p q => q.2 ≤ p.2)) (x : String × Nat) :
    (stableInsert x l).Pairwise (fun p q => q.2 ≤ p.2) := by
  induction l with
  | nil => simp [stableInsert]
  | cons y ys ih =>
    rw [stableInsert]
    by_cases hc : y.2 ≤ x.2
    · rw [if_pos hc]
      refine List.Pairwise.cons ?_ h
      intro z hz
      rcases List.mem_cons.mp hz with rfl | hz
      · exact hc
      · exact le_trans (List.rel_of_pairwise_cons h hz) hc
    · rw [if_neg hc]
      refine List.Pairwise.cons ?_ (ih (List.Pairwise.of_cons h))
      intro z hz
      have hz' := (stableInsert_perm x ys).mem_iff.mp hz
      rcases List.mem_cons.mp hz' with rfl | hz'
      · omega
      · exact List.rel_of_pairwise_cons h hz'

lemma pairwise_most_common (t : List (String × Nat)) :
    (most_common t).Pairwise (fun p q => q.2 ≤ p.2) := by
  induction t with
  | nil => simp [most_common]
  | cons x xs ih => exact pairwise_stableInsert ih x

lemma sublist_stableInsert {s l : List (String × Nat)} (h : s <+ l) (x : String × Nat) :
    s <+ stableInsert x l := by
  induction l generalizing s with
  | nil => simpa [stableInsert] using h.trans (List.nil_sublist [x])
  | cons y ys ih =>
    rw [stableInsert]
    by_cases hc : y.2 ≤ x.2
    · rw [if_pos hc]; exact h.trans (List.sublist_cons_self x (y :: ys))
    · rw [if_neg hc]
      cases h with
      | cons _ h => exact (ih h).trans (List.sublist_cons_self y (stableInsert x ys))
      | cons₂ _ h => exact (ih h).cons₂ y

lemma pair_sublist_stableInsert {x q : String × Nat} {l : List (String × Nat)}
    (hle : q.2 ≤ x.2) (h : q ∈ l) : [x, q] <+ stableInsert x l := by
  induction l with
  | nil => simp at h
  | cons y ys ih =>
    rw [stableInsert]
    by_cases hc : y.2 ≤ x.2
    · rw [if_pos hc]
      exact (List.singleton_sublist.mpr h).cons₂ x
    · rw [if_neg hc]
      rcases List.mem_cons.mp h with rfl | h
      · omega
      · exact (ih h).cons y

lemma pair_sublist_most_common {p q : String × Nat} {t : List (String × Nat)}
    (h : [p, q] <+ t) (hle : q.2 ≤ p.2) : [p, q] <+ most_common t := by
  induction t with
  | nil => cases h
  | cons x xs ih =>
    rw [most_common]
    cases h with
    | cons _ h => exact sublist_stableInsert (ih h) x
    | cons₂ _ h =>
      have hq : q ∈ most_common xs :=
        (most_common_perm xs).mem_iff.mpr (List.singleton_sublist.mp h)
      exact pair_sublist_stableInsert hle hq

/-! ### First-occurrence order of Counter keys -/

lemma sublist_keysOf_foldl (ks : List String) :
    ∀ {t : List (String × Nat)} {l : List String}, l <+ keysOf t →
      l <+ keysOf (List.foldl bump t ks) := by
  induction ks with
  | nil => intro t l h; simpa using h
  | cons j ks ih =>
    intro t l h
    rw [List.foldl_cons]
    refine ih ?_
    rw [keysOf_bump]
    by_cases hm : j ∈ keysOf t
    · rwa [if_pos hm]
    · rw [if_neg hm]
      exact h.trans (List.sublist_append_left _ _)

/-- A key already present in the Counter comes before any key that is first
inserted later. -/
lemma pair_sublist_keysOf_foldl (ks : List String) :
    ∀ {t : List (String × Nat)} {a b : String}, a ∈ keysOf t → b ∉ keysOf t → b ∈ ks →
      [a, b] <+ keysOf (List.foldl bump t ks) := by
  induction ks with
  | nil => intro t a b _ _ hb; cases hb
  | cons j ks ih =>
    intro t a b ha hb hbks
    rw [List.foldl_cons]
    by_cases hj : j = b
    · subst hj
      have hkeys : keysOf (bump t j) = keysOf t ++ [j] := by
        rw [keysOf_bump, if_neg hb]
      refine sublist_keysOf_foldl ks ?_
      rw [hkeys]
      exact ((List.singleton_sublist.mpr ha).append (Sublist.refl [j]))
    · refine ih (mem_keysOf_bump.mpr (Or.inr ha)) ?_ ?_
      · intro hmem
        rcases mem_keysOf_bump.mp hmem with rfl | hmem
        · exact hj rfl
        · exact hb hmem
      · rcases List.mem_cons.mp hbks with rfl | h
        · exact absurd rfl hj
        · exact h

lemma mem_keysOf_foldl (ks : List String) :
    ∀ {t : List (String × Nat)} {k : String},
      k ∈ keysOf (List.foldl bump t ks) ↔ k ∈ keysOf t ∨ k ∈ ks := by
  induction ks with
  | nil => intro t k; simp
  | cons j ks ih =>
    intro t k
    rw [List.foldl_cons, ih, mem_keysOf_bump]
    constructor
    · rintro ((rfl | h) | h)
      · exact Or.inr (List.mem_cons_self _ _)
      · exact Or.inl h
      · exact Or.inr (List.mem_cons_of_mem _ h)
    · rintro (h | h)
      · exact Or.inl (Or.inr h)
      · rcases List.mem_cons.mp h with rfl | h
        · exact Or.inl (Or.inl rfl)
        · exact Or.inr h

/-- Split a list at the first occurrence of `a` when `b` first occurs strictly
later. -/
lemma exists_split_of_indexOf_lt {ks : List String} {a b : String}
    (hb : b ∈ ks) (hlt : ks.indexOf a < ks.indexOf b) :
    ∃ u v, ks = u ++ a :: v ∧ a ∉ u ∧ b ∉ u ∧ b ∈ v := by
  induction ks with
  | nil => cases hb
  | cons k ks ih =>
    by_cases hka : k = a
    · subst hka
      have hba : b ≠ k := by
        rintro rfl
        simp [List.indexOf_cons_self] at hlt
      refine ⟨[], ks, rfl, by simp, by simp [Ne.symm hba], ?_⟩
      rcases List.mem_cons.mp hb with rfl | h
      · exact absurd rfl hba
      · exact h
    · have hkb : k ≠ b := by
        rintro rfl
        rw [List.indexOf_cons_self] at hlt
        omega
      have hb' : b ∈ ks := by
        rcases List.mem_cons.mp hb with rfl | h
        · exact absurd rfl hkb
        · exact h
      have hlt' : ks.indexOf a < ks.indexOf b := by
        rw [List.indexOf_cons_ne _ hka, List.indexOf_cons_ne _ hkb] at hlt
        omega
      obtain ⟨u, v, hsplit, hau, hbu, hbv⟩ := ih hb' hlt'
      refine ⟨k :: u, v, by simp [hsplit], ?_, ?_, hbv⟩
      · intro hmem
        rcases List.mem_cons.mp hmem with rfl | hmem
        · exact hka rfl
        · exact hau hmem
      · intro hmem
        rcases List.mem_cons.mp hmem with rfl | hmem
        · exact hkb rfl
        · exact hbu hmem

lemma pair_indexOf_cons_self (x : String × Nat) (l : List (String × Nat)) :
    (x :: l).indexOf x = 0 := by
  simp [List.indexOf_cons]

lemma pair_indexOf_cons_ne {x z : String × Nat} (l : List (String × Nat)) (h : z ≠ x) :
    (z :: l).indexOf x = l.indexOf x + 1 := by
  simp [List.indexOf_cons, beq_false_of_ne h]

/-- In a duplicate-free list, a two-element sublist determines the relative
order of positions. -/
lemma indexOf_lt_of_pair_sublist : ∀ {l : List (String × Nat)} {x y : String × Nat},
    [x, y] <+ l → l.Nodup → l.indexOf x < l.indexOf y := by
  intro l
  induction l with
  | nil => intro x y h _; cases h
  | cons z l ih =>
    intro x y h hnd
    have hzl : z ∉ l := (List.nodup_cons.mp hnd).1
    have hnd' : l.Nodup := (List.nodup_cons.mp hnd).2
    cases h with
    | cons₂ _ h =>
      have hy : y ∈ l := List.singleton_sublist.mp h
      have hxy : z ≠ y := by rintro rfl; exact hzl hy
      rw [pair_indexOf_cons_self, pair_indexOf_cons_ne _ hxy]
      omega
    | cons _ h =>
      have hx : x ∈ l := h.subset (by simp)
      have hy : y ∈ l := h.subset (by simp)
      have hxz : z ≠ x := by rintro rfl; exact hzl hx
      have hyz : z ≠ y := by rintro rfl; exact hzl hy
      rw [pair_indexOf_cons_ne _ hxz, pair_indexOf_cons_ne _ hyz]
      have := ih h hnd'
      omega

/-- Lift a two-key sublist of the key column to a two-item sublist of the
Counter. -/
lemma pair_sublist_of_keys : ∀ (t : List (String × Nat)) (a b : String),
    [a, b] <+ keysOf t → ∃ ca cb, [(a, ca), (b, cb)] <+ t := by
  intro t
  induction t with
  | nil => intro a b h; cases h
  | cons p rest ih =>
    intro a b h
    rw [keysOf_cons] at h
    cases h with
    | cons _ h =>
      obtain ⟨ca, cb, hsub⟩ := ih a b h
      exact ⟨ca, cb, hsub.cons p⟩
    | cons₂ _ h =>
      have hb : b ∈ keysOf rest := List.singleton_sublist.mp h
      obtain ⟨q, hq, hq1⟩ := List.mem_map.mp hb
      refine ⟨p.2, q.2, ?_⟩
      have : [q] <+ rest := List.singleton_sublist.mpr hq
      have hq' : (b, q.2) = q := by rw [← hq1]
      rw [hq']
      exact this.cons₂ p

lemma nodup_tallyOf (ks : List String) : (tallyOf ks).Nodup :=
  (nodup_keysOf_tallyOf ks).of_map

lemma nodup_most_common_tallyOf (ks : List String) : (most_common (tallyOf ks)).Nodup :=
  ((most_common_perm (tallyOf ks)).nodup_iff).mpr (nodup_tallyOf ks)

/-- Main stability lemma: if `a`'s first occurrence in the key sequence comes
before `b`'s and `a`'s multiplicity is at least `b`'s, then in the
`most_common()` ranking the item for `a` comes before the item for `b`. -/
lemma pair_sublist_most_common_tallyOf {ks : List String} {a b : String}
    (hab : a ≠ b) (hb : b ∈ ks) (hlt : ks.indexOf a < ks.indexOf b)
    (hcnt : ks.count b ≤ ks.count a) :
    [(a, ks.count a), (b, ks.count b)] <+ most_common (tallyOf ks) := by
  obtain ⟨u, v, hks, hau, hbu, hbv⟩ := exists_split_of_indexOf_lt hb hlt
  have hsplit : tallyOf ks = List.foldl bump (List.foldl bump [] (u ++ [a])) v := by
    rw [hks, tallyOf, ← List.foldl_append]
    congr 1
    simp
  have ha₁ : a ∈ keysOf (List.foldl bump [] (u ++ [a])) :=
    (mem_keysOf_foldl _).mpr (Or.inr (by simp))
  have hb₁ : b ∉ keysOf (List.foldl bump [] (u ++ [a])) := by
    intro hmem
    rcases (mem_keysOf_foldl _).mp hmem with hmem | hmem
    · simp at hmem
    · rcases List.mem_append.mp hmem with hmem | hmem
      · exact hbu hmem
      · simp at hmem; exact hab hmem.symm
  have hkeys : [a, b] <+ keysOf (tallyOf ks) := by
    rw [hsplit]
    exact pair_sublist_keysOf_foldl v ha₁ hb₁ hbv
  obtain ⟨ca, cb, hsub⟩ := pair_sublist_of_keys _ a b hkeys
  have hca : ca = ks.count a := (mem_tallyOf.mp (hsub.subset (by simp))).2
  have hcb : cb = ks.count b := (mem_tallyOf.mp (hsub.subset (by simp))).2
  subst hca; subst hcb
  exact pair_sublist_most_common hsub hcnt

/-! ### Counting lemmas relating key sequences to per-line predicates -/

lemma failKeys_cons (l : String) (ls : List String) :
    failKeys (l :: ls) =
      match (if isFailLine l then firstToken l else none) with
      | none => failKeys ls
      | some v => v :: failKeys ls := by
  simp only [failKeys, List.filterMap_cons]
  cases (if isFailLine l = true then firstToken l else none) <;> rfl

lemma count_failKeys (lines : List String) (ip : String) :
    (failKeys lines).count ip =
      lines.countP (fun l => isFailLine l && (firstToken l == some ip)) := by
  induction lines with
  | nil => rfl
  | cons l ls ih =>
    rw [failKeys_cons, List.countP_cons]
    by_cases hf : isFailLine l
    · cases ht : firstToken l with
      | none => simp [hf, ht, ih]
      | some v =>
        by_cases hv : v = ip
        · subst hv; simp [hf, ht, ih, List.count_cons]
        · simp [hf, ht, ih, List.count_cons, hv, beq_false_of_ne hv]
    · simp [hf, ih]

lemma count_endpointKeys (lines : List String) (e : String) :
    (endpointKeys lines).count e =
      lines.countP (fun l => searchEndpoint l.data == some e) := by
  induction lines with
  | nil => rfl
  | cons l ls ih =>
    rw [endpointKeys, List.filterMap_cons, List.countP_cons]
    cases ht : searchEndpoint l.data with
    | none => simpa [ht, endpointKeys] using ih
    | some v =>
      rw [List.count_cons]
      by_cases hv : v = e
      · subst hv; simpa [ht, endpointKeys] using ih
      · simpa [ht, endpointKeys, hv, beq_false_of_ne hv] using ih

lemma length_requestKeys (lines : List String) :
    (requestKeys lines).length = lines.countP (fun l => (firstToken l).isSome) := by
  induction lines with
  | nil => rfl
  | cons l ls ih =>
    rw [requestKeys, List.filterMap_cons, List.countP_cons]
    cases ht : firstToken l with
    | none => simpa [ht, requestKeys] using ih
    | some v => simpa [ht, requestKeys] using ih

lemma failKeys_sublist_requestKeys (lines : List String) :
    failKeys lines <+ requestKeys lines := by
  induction lines with
  | nil => exact Sublist.refl _
  | cons l ls ih =>
    rw [failKeys, requestKeys, List.filterMap_cons, List.filterMap_cons]
    by_cases hf : isFailLine l
    · simp only [hf, if_pos rfl]
      cases ht : firstToken l with
      | none => simpa [failKeys, requestKeys] using ih
      | some v => exact Sublist.cons₂ v (by simpa [failKeys, requestKeys] using ih)
    · simp only [Bool.not_eq_true] at hf
      simp only [hf, Bool.false_eq_true, if_false]
      cases ht : firstToken l with
      | none => simpa [failKeys, requestKeys] using ih
      | some v => exact Sublist.cons v (by simpa [failKeys, requestKeys] using ih)

lemma sumCounts_most_common (t : List (String × Nat)) :
    sumCounts (most_common t) = sumCounts t :=
  ((most_common_perm t).map Prod.snd).sum_eq

/-! ### The analysis record and the pipeline of `__main__` -/

/-- The aggregate produced by one run: the three results, in the order the
script computes them. -/
structure AnalysisResult where
  ip_requests : List (String × Nat)
  most_frequent : String × Nat
  suspicious : List (String × Nat)
deriving DecidableEq

/-- Model of the `__main__` block: each pass independently reads the same path from the
file system `fs` (a map from paths to contents, `none` = unreadable). -/
def runPipeline (fs : String → Option (List String)) (logPath : String) (threshold : Int) :
    AnalysisResult :=
  { ip_requests := count_requests_per_ip (fs logPath)
    most_frequent := most_frequent_endpoint (fs logPath)
    suspicious := detect_suspicious_activity (fs logPath) threshold }

/-! ### Claims C1–C5, C10 -/

/-- Eleven lines for identifier `10.0.0.5`, each containing `401`. -/
def elevenLines : List String :=
  List.replicate 11 "10.0.0.5 - - \"POST /login HTTP/1.1\" 401"

/-- C1: the Suspicious Activity Detector's output is exactly the set of
(identifier, failure-count) pairs whose count is strictly greater than the
threshold; a count equal to the threshold is excluded.  With 11 failing lines
for `10.0.0.5`, the identifier is listed at threshold 10 but not at 11. -/
theorem claim_c1_strict_threshold :
    (∀ (lines : List String) (t : Int) (p : String × Nat),
      p ∈ detect_suspicious_activity (some lines) t ↔
        p.1 ∈ failKeys lines ∧ p.2 = (failKeys lines).count p.1 ∧ t < (p.2 : Int)) ∧
    detect_suspicious_activity (some elevenLines) 10 = [("10.0.0.5", 11)] ∧
    detect_suspicious_activity (some elevenLines) 11 = [] := by
  refine ⟨?_, by decide, by decide⟩
  intro lines t p
  obtain ⟨k, c⟩ := p
  rw [detect_suspicious_activity, List.mem_filter]
  constructor
  · rintro ⟨hmem, hf⟩
    obtain ⟨hk, hc⟩ := mem_tallyOf.mp hmem
    exact ⟨hk, hc, by simpa using hf⟩
  · rintro ⟨hk, hc, ht⟩
    exact ⟨mem_tallyOf.mpr ⟨hk, hc⟩, by simpa using ht⟩

/-- C1 witness: the strict-threshold boundary evaluated at the eleven-line file. -/
theorem claim_c1_witness :
    detect_suspicious_activity (some elevenLines) 10 = [("10.0.0.5", 11)] :=
  claim_c1_strict_threshold.2.1

/-- C2: a line is classified as a failed-authentication event iff it contains
the literal substring `401` or `Invalid credentials` (case-sensitive, anywhere
in the line); on a classified line the tallied identifier is the first
whitespace token.  The detector's per-identifier count is exactly the number of
lines classified that way whose first token is that identifier. -/
theorem claim_c2_classification :
    (∀ (lines : List String) (ip : String),
      ((tallyOf (failKeys lines)).lookup ip).getD 0 =
        lines.countP (fun l => isFailLine l && (firstToken l == some ip))) ∧
    (∀ line : String, isFailLine line =
      (containsSeq "401".data line.data || containsSeq "Invalid credentials".data line.data)) ∧
    isFailLine "client7 sent 94019 bytes" = true ∧
    isFailLine "client7 invalid credentials" = false ∧
    isFailLine "client7 Invalid credentials for admin" = true ∧
    isFailLine "10.0.0.5 - - \"GET /ok HTTP/1.1\" 200" = false ∧
    firstToken "10.0.0.5 - - 401 extra" = some "10.0.0.5" := by
  refine ⟨?_, fun _ => rfl, by decide, by decide, by decide, by decide, by decide⟩
  intro lines ip
  rw [lookup_tallyOf_getD, count_failKeys]

/-- C4: the per-identifier counts of the Request Counter sum to the number of
lines with at least one whitespace token; tokenless lines contribute nothing
and do not aboard the pass (second conjunct: a concrete run with empty and
all-blank lines). -/
theorem claim_c4_sum_of_counts :
    (∀ lines : List String, sumCounts (count_requests_per_ip (some lines)) =
      lines.countP (fun l => (firstToken l).isSome)) ∧
    count_requests_per_ip (some ["alpha one", "", "   ", "alpha two"]) = [("alpha", 2)] := by
  refine ⟨?_, by decide⟩
  intro lines
  rw [count_requests_per_ip, sumCounts_most_common, sumCounts_tallyOf, length_requestKeys]

/-- C5: the Endpoint Extractor tallies exactly the lines whose text matches the
quoted request pattern, keyed by the captured path (first conjunct); the
documented example line yields `/home`; unmatched lines contribute nothing; and
when no line matches the result is the sentinel `("N/A", 0)`. -/
theorem claim_c5_endpoint_extraction :
    (∀ (lines : List String) (e : String),
      ((tallyOf (endpointKeys lines)).lookup e).getD 0 =
        lines.countP (fun l => searchEndpoint l.data == some e)) ∧
    searchEndpoint "127.0.0.1 - - \"GET /home HTTP/1.1\" 200".data = some "/home" ∧
    most_frequent_endpoint (some ["127.0.0.1 - - \"GET /home HTTP/1.1\" 200"]) = ("/home", 1) ∧
    searchEndpoint "192.168.0.9 - - [10/Oct/2025] 200 512".data = none ∧
    (∀ lines : List String, (∀ l ∈ lines, searchEndpoint l.data = none) →
      most_frequent_endpoint (some lines) = ("N/A", 0)) := by
  refine ⟨?_, by decide, by decide, by decide, ?_⟩
  · intro lines e
    rw [lookup_tallyOf_getD, count_endpointKeys]
  · intro lines h
    have : endpointKeys lines = [] := by
      rw [endpointKeys, List.filterMap_eq_nil_iff]
      exact h
    rw [most_frequent_endpoint, this]
    rfl

/-- C5 witness: the no-match branch applied to a concrete one-line file. -/
theorem claim_c5_witness :
    most_frequent_endpoint (some ["one plain line"]) = ("N/A", 0) :=
  claim_c5_endpoint_extraction.2.2.2.2 ["one plain line"] (by decide)

/-- C3: a path that does not resolve to a readable file gives each pass its
empty/default result, and the whole pipeline record — all three passes run —
is the default record: no pass's failure prevents the others. -/
theorem claim_c3_missing_file :
    ∀ (fs : String → Option (List String)) (path : String) (t : Int), fs path = none →
      count_requests_per_ip (fs path) = [] ∧
      most_frequent_endpoint (fs path) = ("N/A", 0) ∧
      detect_suspicious_activity (fs path) t = [] ∧
      runPipeline fs path t = ⟨[], ("N/A", 0), []⟩ := by
  intro fs path t h
  rw [runPipeline, h]
  exact ⟨rfl, rfl, rfl, rfl⟩

/-- C3 witness: a file system with no readable files at all. -/
theorem claim_c3_witness :
    count_requests_per_ip ((fun _ => none) "missing.log") = [] ∧
    most_frequent_endpoint ((fun _ => none) "missing.log") = ("N/A", 0) ∧
    detect_suspicious_activity ((fun _ => none) "missing.log") 10 = [] ∧
    runPipeline (fun _ => none) "missing.log" 10 = ⟨[], ("N/A", 0), []⟩ :=
  claim_c3_missing_file (fun _ => none) "missing.log" 10 rfl

/-- C10: every identifier in the suspicious output also appears in the Request
Counter's output, with a request count at least its failed-login count (every
failure-classified line with a first token is also counted as a request). -/
theorem claim_c10_suspicious_subset_requests :
    ∀ (lines : List String) (t : Int) (ip : String) (c : Nat),
      (ip, c) ∈ detect_suspicious_activity (some lines) t →
      ∃ c', (ip, c') ∈ count_requests_per_ip (some lines) ∧ c ≤ c' := by
  intro lines t ip c h
  rw [detect_suspicious_activity] at h
  obtain ⟨hk, hc⟩ := mem_tallyOf.mp (List.mem_filter.mp h).1
  refine ⟨(requestKeys lines).count ip, ?_, ?_⟩
  · have hmem : ip ∈ requestKeys lines := (failKeys_sublist_requestKeys lines).subset hk
    rw [count_requests_per_ip]
    exact (most_common_perm _).mem_iff.mpr (mem_tallyOf.mpr ⟨hmem, rfl⟩)
  · rw [hc]
    exact (failKeys_sublist_requestKeys lines).count_le ip

/-- C10 witness: one failing line, threshold 0. -/
theorem claim_c10_witness :
    ∃ c', ("10.0.0.5", c') ∈ count_requests_per_ip (some ["10.0.0.5 x 401"]) ∧ 1 ≤ c' :=
  claim_c10_suspicious_subset_requests ["10.0.0.5 x 401"] 0 "10.0.0.5" 1 (by decide)

/-- C6: the Request Counter's ranking is by descending count (first conjunct)
and stable: of two identifiers with equal counts, the one whose first
occurrence in the key sequence is earlier is ranked first (second conjunct,
positions compared by `indexOf`); and when endpoints tie for the maximum
count, the Endpoint Extractor returns the one encountered first (third
conjunct: no tying endpoint occurs strictly earlier than the returned one). -/
theorem claim_c6_stable_tie_break :
    (∀ lines : List String,
      (count_requests_per_ip (some lines)).Pairwise (fun p q => q.2 ≤ p.2)) ∧
    (∀ (lines : List String) (a b : String), a ≠ b → b ∈ requestKeys lines →
      (requestKeys lines).indexOf a < (requestKeys lines).indexOf b →
      (requestKeys lines).count a = (requestKeys lines).count b →
      (count_requests_per_ip (some lines)).indexOf (a, (requestKeys lines).count a) <
        (count_requests_per_ip (some lines)).indexOf (b, (requestKeys lines).count b)) ∧
    (∀ (lines : List String) (e : String), e ∈ endpointKeys lines →
      (endpointKeys lines).count e =
        (endpointKeys lines).count (most_frequent_endpoint (some lines)).1 →
      (endpointKeys lines).indexOf (most_frequent_endpoint (some lines)).1 ≤
        (endpointKeys lines).indexOf e) := by
  refine ⟨?_, ?_, ?_⟩
  · intro lines
    rw [count_requests_per_ip]
    exact pairwise_most_common _
  · intro lines a b hab hb hlt hcnt
    rw [count_requests_per_ip]
    exact indexOf_lt_of_pair_sublist
      (pair_sublist_most_common_tallyOf hab hb hlt (le_of_eq hcnt.symm))
      (nodup_most_common_tallyOf _)
  · intro lines e he hcnt
    by_cases htop : (most_frequent_endpoint (some lines)).1 = e
    · rw [htop]
    · rcases Nat.lt_or_ge ((endpointKeys lines).indexOf e)
        ((endpointKeys lines).indexOf (most_frequent_endpoint (some lines)).1) with hidx | hge
      · exfalso
        have hne : most_common (tallyOf (endpointKeys lines)) ≠ [] := by
          intro h0
          have hmemk : e ∈ keysOf (tallyOf (endpointKeys lines)) := mem_keysOf_tallyOf.mpr he
          have hnil : tallyOf (endpointKeys lines) = [] := by
            have hp := most_common_perm (tallyOf (endpointKeys lines))
            rw [h0] at hp
            exact (hp.symm).eq_nil
          rw [hnil] at hmemk
          simp at hmemk
        obtain ⟨p, rest, hmc⟩ : ∃ p rest,
            most_common (tallyOf (endpointKeys lines)) = p :: rest := by
          cases h : most_common (tallyOf (endpointKeys lines)) with
          | nil => exact absurd h hne
          | cons p rest => exact ⟨p, rest, rfl⟩
        obtain ⟨k, c⟩ := p
        have htopeq : most_frequent_endpoint (some lines) = (k, c) := by
          rw [most_frequent_endpoint, hmc]
          rfl
        have hkmem : (k, c) ∈ tallyOf (endpointKeys lines) :=
          (most_common_perm _).subset (hmc ▸ List.mem_cons_self (k, c) rest)
        obtain ⟨hk1, hk2⟩ := mem_tallyOf.mp hkmem
        have htop1 : (most_frequent_endpoint (some lines)).1 = k := by rw [htopeq]
        have heb : e ≠ k := fun h => htop (by rw [htop1, h])
        have hlt' : (endpointKeys lines).indexOf e < (endpointKeys lines).indexOf k := by
          rwa [htop1] at hidx
        have hcnt' : (endpointKeys lines).count k ≤ (endpointKeys lines).count e := by
          rw [htop1] at hcnt
          omega
        have hsub := pair_sublist_most_common_tallyOf heb hk1 hlt' hcnt'
        rw [hmc] at hsub
        have hnd : ((k, c) :: rest).Nodup := hmc ▸ nodup_most_common_tallyOf _
        have hpos := indexOf_lt_of_pair_sublist hsub hnd
        rw [← hk2, pair_indexOf_cons_self] at hpos
        omega
      · exact hge

/-- C6 witness: identifiers `b` and `a` tie with count 2; `b` occurs first in
the input and is ranked first. -/
theorem claim_c6_witness :
    (count_requests_per_ip (some ["b x", "a y", "a z", "b w"])).indexOf
        ("b", (requestKeys ["b x", "a y", "a z", "b w"]).count "b") <
      (count_requests_per_ip (some ["b x", "a y", "a z", "b w"])).indexOf
        ("a", (requestKeys ["b x", "a y", "a z", "b w"]).count "a") :=
  claim_c6_stable_tie_break.2.1 ["b x", "a y", "a z", "b w"] "b" "a"
    (by decide) (by decide) (by decide) (by decide)

/-! ### `save_results_to_csv`: model of `csv.writer` (default dialect: comma
delimiter, quote character `"`, QUOTE_MINIMAL, line terminator CRLF; the file
is opened with `newline=''` so the terminator is written verbatim). -/

/-- One data row as `writerow` renders a `(str, int)` tuple. -/
def pairRow (p : String × Nat) : List String := [p.1, Nat.repr p.2]

/-- The exact sequence of `writerow`/`writerows` calls of `save_results_to_csv`. -/
def save_rows (r : AnalysisResult) : List (List String) :=
  [["Requests per IP"], ["IP Address", "Request Count"]]
    ++ r.ip_requests.map pairRow ++ [[]]
    ++ [["Most Accessed Endpoint"], ["Endpoint", "Access Count"], pairRow r.most_frequent, []]
    ++ [["Suspicious Activity"], ["IP Address", "Failed Login Count"]]
    ++ r.suspicious.map pairRow

/-- QUOTE_MINIMAL: a field is quoted iff it contains the delimiter, the quote
character, or a line-terminator character. -/
def isSpecial (c : Char) : Bool := c = ',' || c = '"' || c = '\r' || c = '\n'

/-- Escaping inside a quoted field: every quote character is doubled. -/
def dq : List Char → List Char
  | [] => []
  | c :: rest => if c = '"' then '"' :: '"' :: dq rest else c :: dq rest

/-- Serialize one field. -/
def fieldRaw (s : String) : List Char :=
  if s.data.any isSpecial then '"' :: (dq s.data ++ ['"']) else s.data

/-- Serialize one row: fields joined by the comma delimiter. -/
def rowRaw : List String → List Char
  | [] => []
  | [f] => fieldRaw f
  | f :: fs => fieldRaw f ++ ',' :: rowRaw fs

/-- Serialize a row sequence: every row is terminated by CRLF. -/
def csvChars : List (List String) → List Char
  | [] => []
  | row :: rows => rowRaw row ++ '\r' :: '\n' :: csvChars rows

/-- The text written by `save_results_to_csv`. -/
def save_results_to_csv (r : AnalysisResult) : String := ⟨csvChars (save_rows r)⟩

/-! ### A CSV re-parser (not part of the script; used to state the round-trip
claim).  Records are split at LF outside quotes, then a trailing CR is
stripped from each record; fields are split at commas outside quotes and
unquoted. -/

def splitRecAux (cur : List Char) (inQ : Bool) : List Char → List (List Char)
  | [] => if cur.isEmpty then [] else [cur.reverse]
  | c :: rest =>
    if c = '"' then splitRecAux ('"' :: cur) (!inQ) rest
    else if c = '\n' ∧ inQ = false then cur.reverse :: splitRecAux [] false rest
    else splitRecAux (c :: cur) inQ rest

def splitFieldsAux (cur : List Char) (inQ : Bool) : List Char → List (List Char)
  | [] => [cur.reverse]
  | c :: rest =>
    if c = '"' then splitFieldsAux ('"' :: cur) (!inQ) rest
    else if c = ',' ∧ inQ = false then cur.reverse :: splitFieldsAux [] false rest
    else splitFieldsAux (c :: cur) inQ rest

def undouble : List Char → List Char
  | [] => []
  | [c] => [c]
  | c :: c' :: rest =>
    if c = '"' ∧ c' = '"' then '"' :: undouble rest
    else c :: undouble (c' :: rest)

def unquoteField (cs : List Char) : String :=
  match cs with
  | [] => ⟨[]⟩
  | c :: rest => if c = '"' then ⟨undouble rest.dropLast⟩ else ⟨c :: rest⟩

def stripCR (r : List Char) : List Char :=
  if r.getLast? = some '\r' then r.dropLast else r

def parseRecord (cs : List Char) : List String :=
  match cs with
  | [] => []
  | _ => (splitFieldsAux [] false cs).map unquoteField

def parseRows (s : String) : List (List String) :=
  (splitRecAux [] false s.data).map (fun r => parseRecord (stripCR r))

/-- Rows of a section body: everything up to the next blank row (the blank row
is consumed). -/
def takeSection : List (List String) → List (List String) × List (List String)
  | [] => ([], [])
  | row :: rest =>
    if row = [] then ([], rest)
    else (row :: (takeSection rest).1, (takeSection rest).2)

def digitVal (c : Char) : Nat := c.toNat - '0'.toNat

def parseCount (s : String) : Option Nat :=
  if s.data ≠ [] ∧ s.data.all Char.isDigit then
    some (s.data.foldl (fun a c => a * 10 + digitVal c) 0)
  else none

def parsePair : List String → Option (String × Nat)
  | [a, b] => (parseCount b).map (fun n => (a, n))
  | _ => none

def parsePairs : List (List String) → Option (List (String × Nat))
  | [] => some []
  | row :: rest =>
    match parsePair row, parsePairs rest with
    | some p, some ps => some (p :: ps)
    | _, _ => none

def parseSection (hdr : String) (title : List String) (rows : List (List String)) :
    Option (List (String × Nat) × List (List String)) :=
  match rows with
  | h :: t :: rest =>
    if h = [hdr] ∧ t = title then
      (parsePairs (takeSection rest).1).map (fun l => (l, (takeSection rest).2))
    else none
  | _ => none

def parseAnalysisCSV (s : String) : Option AnalysisResult :=
  match parseSection "Requests per IP" ["IP Address", "Request Count"] (parseRows s) with
  | some (ips, rest₁) =>
    match parseSection "Most Accessed Endpoint" ["Endpoint", "Access Count"] rest₁ with
    | some ([mf], rest₂) =>
      match parseSection "Suspicious Activity" ["IP Address", "Failed Login Count"] rest₂ with
      | some (sus, []) => some ⟨ips, mf, sus⟩
      | _ => none
    | _ => none
  | none => none

/-! ### CSV sanity checks -/

example : save_results_to_csv ⟨[("1.1.1.1", 2)], ("/a", 2), []⟩ =
    "Requests per IP\r\nIP Address,Request Count\r\n1.1.1.1,2\r\n\r\nMost Accessed Endpoint\r\nEndpoint,Access Count\r\n/a,2\r\n\r\nSuspicious Activity\r\nIP Address,Failed Login Count\r\n" := by
  decide

example : parseAnalysisCSV (save_results_to_csv
    ⟨[("1.1.1.1", 2), ("2.2.2.2", 1)], ("/a", 2), [("9.9.9.9", 12)]⟩) =
    some ⟨[("1.1.1.1", 2), ("2.2.2.2", 1)], ("/a", 2), [("9.9.9.9", 12)]⟩ := by
  decide

example : parseAnalysisCSV (save_results_to_csv
    ⟨[("a\"b,c", 10)], ("N/A", 0), []⟩) =
    some ⟨[("a\"b,c", 10)], ("N/A", 0), []⟩ := by
  decide

/-! ### Decimal printing round-trip: `str(count)` re-parses to the count -/

lemma digitChar_val {m : Nat} (h : m < 10) :
    digitVal (Nat.digitChar m) = m ∧ (Nat.digitChar m).isDigit = true := by
  interval_cases m <;> exact ⟨by decide, by decide⟩

lemma toDigitsCore_spec : ∀ (fuel n : Nat) (ds : List Char), n < fuel →
    ∃ pre : List Char, Nat.toDigitsCore 10 fuel n ds = pre ++ ds ∧ pre ≠ [] ∧
      (∀ c ∈ pre, c.isDigit = true) ∧
      ∀ acc : Nat, pre.foldl (fun a c => a * 10 + digitVal c) acc =
        acc * 10 ^ pre.length + n := by
  intro fuel
  induction fuel with
  | zero => intro n ds h; omega
  | succ f ih =>
    intro n ds h
    rw [Nat.toDigitsCore]
    by_cases h0 : n / 10 = 0
    · rw [if_pos h0]
      refine ⟨[Nat.digitChar (n % 10)], rfl, by simp, ?_, ?_⟩
      · intro c hc
        rcases List.mem_singleton.mp hc with rfl
        exact (digitChar_val (Nat.mod_lt n (by omega))).2
      · intro acc
        have hlt10 : n < 10 := by omega
        simp only [List.foldl_cons, List.foldl_nil, List.length_singleton, pow_one]
        rw [Nat.mod_eq_of_lt hlt10, (digitChar_val hlt10).1]
    · rw [if_neg h0]
      have hge : 10 ≤ n := by
        by_contra hc
        exact h0 (Nat.div_eq_of_lt (by omega))
      have hlt : n / 10 < f := by
        have h1 : n / 10 < n := Nat.div_lt_self (by omega) (by omega)
        omega
      obtain ⟨pre, heq, hne, hdig, hfold⟩ := ih (n / 10) (Nat.digitChar (n % 10) :: ds) hlt
      refine ⟨pre ++ [Nat.digitChar (n % 10)], by rw [heq]; simp, by simp, ?_, ?_⟩
      · intro c hc
        rcases List.mem_append.mp hc with hc | hc
        · exact hdig c hc
        · rcases List.mem_singleton.mp hc with rfl
          exact (digitChar_val (Nat.mod_lt n (by omega))).2
      · intro acc
        rw [List.foldl_append, hfold acc]
        simp only [List.foldl_cons, List.foldl_nil, List.length_append,
          List.length_singleton]
        rw [(digitChar_val (Nat.mod_lt n (by omega))).1]
        have : 10 ^ (pre.length + 1) = 10 ^ pre.length * 10 := by ring
        rw [this]
        have hmod := Nat.div_add_mod n 10
        ring_nf
        omega

lemma parseCount_repr (n : Nat) : parseCount (Nat.repr n) = some n := by
  obtain ⟨pre, heq, hne, hdig, hfold⟩ := toDigitsCore_spec (n + 1) n [] (by omega)
  have hdata : (Nat.repr n).data = pre := by
    rw [Nat.repr, Nat.toDigits, heq]
    simp [List.asString]
  rw [parseCount, hdata]
  rw [if_pos ⟨hne, List.all_eq_true.mpr hdig⟩]
  have := hfold 0
  simp only [Nat.zero_mul] at this
  rw [this]
  simp

lemma parsePair_pairRow (p : String × Nat) : parsePair (pairRow p) = some p := by
  obtain ⟨a, n⟩ := p
  rw [pairRow, parsePair, parseCount_repr]
  rfl

lemma parsePairs_map_pairRow (l : List (String × Nat)) :
    parsePairs (l.map pairRow) = some l := by
  induction l with
  | nil => rfl
  | cons p rest ih =>
    rw [List.map_cons, parsePairs, parsePair_pairRow, ih]

lemma pairRow_ne_nil (p : String × Nat) : pairRow p ≠ [] := by
  simp [pairRow]

lemma takeSection_append {rows : List (List String)} (h : ∀ row ∈ rows, row ≠ [])
    (rest : List (List String)) :
    takeSection (rows ++ [] :: rest) = (rows, rest) := by
  induction rows with
  | nil => rfl
  | cons row rows ih =>
    rw [List.cons_append, takeSection,
      if_neg (h row (List.mem_cons_self _ _)),
      ih (fun r hr => h r (List.mem_cons_of_mem _ hr))]

lemma takeSection_all {rows : List (List String)} (h : ∀ row ∈ rows, row ≠ []) :
    takeSection rows = (rows, []) := by
  induction rows with
  | nil => rfl
  | cons row rows ih =>
    rw [takeSection, if_neg (h row (List.mem_cons_self _ _)),
      ih (fun r hr => h r (List.mem_cons_of_mem _ hr))]

/-! ### The field splitter undoes the field serializer -/

lemma isSpecial_elim {c : Char} (h : isSpecial c = false) :
    c ≠ ',' ∧ c ≠ '"' ∧ c ≠ '\r' ∧ c ≠ '\n' := by
  simp only [isSpecial, Bool.or_eq_false_iff, decide_eq_false_iff_not] at h
  exact ⟨h.1.1.1, h.1.1.2, h.1.2, h.2⟩

/-! One-step equations for the field splitter. -/

lemma sfa_nil (cur : List Char) (inQ : Bool) :
    splitFieldsAux cur inQ [] = [cur.reverse] := rfl

lemma sfa_quote (cur : List Char) (inQ : Bool) (rest : List Char) :
    splitFieldsAux cur inQ ('"' :: rest) = splitFieldsAux ('"' :: cur) (!inQ) rest := by
  rw [splitFieldsAux, if_pos rfl]

lemma sfa_comma_false (cur rest : List Char) :
    splitFieldsAux cur false (',' :: rest) = cur.reverse :: splitFieldsAux [] false rest := by
  rw [splitFieldsAux, if_neg (by decide), if_pos ⟨rfl, rfl⟩]

lemma sfa_comma_true (cur rest : List Char) :
    splitFieldsAux cur true (',' :: rest) = splitFieldsAux (',' :: cur) true rest := by
  rw [splitFieldsAux, if_neg (by decide), if_neg (by simp)]

lemma sfa_plain {c : Char} (hq : c ≠ '"') (hcm : c ≠ ',') (cur : List Char) (inQ : Bool)
    (rest : List Char) :
    splitFieldsAux cur inQ (c :: rest) = splitFieldsAux (c :: cur) inQ rest := by
  rw [splitFieldsAux, if_neg hq, if_neg (by simp [hcm])]

lemma splitFieldsAux_plain : ∀ {l : List Char}, (∀ c ∈ l, isSpecial c = false) →
    ∀ (cur rest : List Char),
      splitFieldsAux cur false (l ++ rest) = splitFieldsAux (l.reverse ++ cur) false rest := by
  intro l
  induction l with
  | nil => intro _ cur rest; simp
  | cons c l ih =>
    intro h cur rest
    have hc := isSpecial_elim (h c (List.mem_cons_self _ _))
    rw [List.cons_append, sfa_plain hc.2.1 hc.1,
      ih (fun d hd => h d (List.mem_cons_of_mem _ hd)) (c :: cur) rest]
    congr 1
    simp

lemma splitFieldsAux_quoted : ∀ (l cur rest : List Char),
    splitFieldsAux cur true (dq l ++ '"' :: rest) =
      splitFieldsAux ('"' :: ((dq l).reverse ++ cur)) false rest := by
  intro l
  induction l with
  | nil =>
    intro cur rest
    rw [show dq [] = ([] : List Char) from rfl, List.nil_append, sfa_quote]
    rfl
  | cons c l ih =>
    intro cur rest
    by_cases hc : c = '"'
    · subst hc
      rw [show dq ('"' :: l) = '"' :: '"' :: dq l from by simp [dq]]
      rw [List.cons_append, List.cons_append, sfa_quote, sfa_quote]
      rw [show (!!true) = true from rfl]
      rw [ih ('"' :: '"' :: cur) rest]
      congr 1
      simp
    · rw [show dq (c :: l) = c :: dq l from by simp [dq, hc]]
      by_cases hcm : c = ','
      · subst hcm
        rw [List.cons_append, sfa_comma_true, ih (',' :: cur) rest]
        congr 1
        simp
      · rw [List.cons_append, sfa_plain hc hcm, ih (c :: cur) rest]
        congr 1
        simp

lemma splitFieldsAux_field (s : String) (cur rest : List Char) :
    splitFieldsAux cur false (fieldRaw s ++ rest) =
      splitFieldsAux ((fieldRaw s).reverse ++ cur) false rest := by
  rw [fieldRaw]
  by_cases hq : s.data.any isSpecial
  · rw [if_pos hq, show ('"' :: (dq s.data ++ ['"'])) ++ rest =
      '"' :: (dq s.data ++ '"' :: rest) from by simp]
    rw [sfa_quote]
    rw [show (!false) = true from rfl]
    rw [splitFieldsAux_quoted s.data ('"' :: cur) rest]
    congr 1
    simp
  · rw [if_neg hq]
    have hq' : ∀ c ∈ s.data, isSpecial c = false := by simpa using hq
    exact splitFieldsAux_plain hq' cur rest

lemma rowRaw_cons_cons (f f' : String) (fs : List String) :
    rowRaw (f :: f' :: fs) = fieldRaw f ++ ',' :: rowRaw (f' :: fs) := rfl

lemma splitFieldsAux_rowRaw : ∀ (fs : List String) (f : String) (cur : List Char),
    splitFieldsAux cur false (rowRaw (f :: fs)) =
      (cur.reverse ++ fieldRaw f) :: fs.map fieldRaw := by
  intro fs
  induction fs with
  | nil =>
    intro f cur
    have h := splitFieldsAux_field f cur []
    rw [List.append_nil] at h
    rw [show rowRaw [f] = fieldRaw f from rfl, h, sfa_nil]
    simp
  | cons f' fs ih =>
    intro f cur
    rw [rowRaw_cons_cons, splitFieldsAux_field, sfa_comma_false, ih f' []]
    simp

/-! ### Unquoting undoes quoting -/

lemma dq_ne_nil : ∀ {l : List Char}, l ≠ [] → dq l ≠ [] := by
  intro l h
  cases l with
  | nil => exact absurd rfl h
  | cons c r => by_cases hc : c = '"' <;> simp [dq, hc]

lemma undouble_dq : ∀ l : List Char, undouble (dq l) = l := by
  intro l
  induction l with
  | nil => rfl
  | cons c l ih =>
    by_cases hc : c = '"'
    · subst hc
      rw [show dq ('"' :: l) = '"' :: '"' :: dq l from by simp [dq]]
      rw [show undouble ('"' :: '"' :: dq l) = '"' :: undouble (dq l) from by
        simp [undouble]]
      rw [ih]
    · rw [show dq (c :: l) = c :: dq l from by simp [dq, hc]]
      cases hdl : dq l with
      | nil =>
        have hl : l = [] := by
          cases l with
          | nil => rfl
          | cons d r => exact absurd hdl (dq_ne_nil (by simp))
        subst hl
        rfl
      | cons d ds =>
        rw [show undouble (c :: d :: ds) = c :: undouble (d :: ds) from by
          simp [undouble, hc]]
        rw [← hdl, ih]

lemma unquoteField_fieldRaw (s : String) : unquoteField (fieldRaw s) = s := by
  rw [fieldRaw]
  by_cases hq : s.data.any isSpecial
  · rw [if_pos hq]
    rw [show unquoteField ('"' :: (dq s.data ++ ['"'])) =
      ⟨undouble (dq s.data ++ ['"']).dropLast⟩ from by simp [unquoteField]]
    rw [List.dropLast_concat, undouble_dq]
  · rw [if_neg hq]
    cases hs : s.data with
    | nil =>
      rw [show unquoteField [] = ⟨[]⟩ from rfl, ← hs]
    | cons c cs =>
      have hc : c ≠ '"' := by
        intro hcq
        subst hcq
        refine absurd ?_ hq
        rw [hs]
        simp [isSpecial]
      rw [show unquoteField (c :: cs) = ⟨c :: cs⟩ from by simp [unquoteField, hc], ← hs]

/-! ### The record splitter undoes the row serializer -/

lemma sra_nil (cur : List Char) (inQ : Bool) :
    splitRecAux cur inQ [] = if cur.isEmpty then [] else [cur.reverse] := rfl

lemma sra_quote (cur : List Char) (inQ : Bool) (rest : List Char) :
    splitRecAux cur inQ ('"' :: rest) = splitRecAux ('"' :: cur) (!inQ) rest := by
  rw [splitRecAux, if_pos rfl]

lemma sra_nl_false (cur rest : List Char) :
    splitRecAux cur false ('\n' :: rest) = cur.reverse :: splitRecAux [] false rest := by
  rw [splitRecAux, if_neg (by decide), if_pos ⟨rfl, rfl⟩]

lemma sra_nl_true (cur rest : List Char) :
    splitRecAux cur true ('\n' :: rest) = splitRecAux ('\n' :: cur) true rest := by
  rw [splitRecAux, if_neg (by decide), if_neg (by simp)]

lemma sra_plain {c : Char} (hq : c ≠ '"') (hn : c ≠ '\n') (cur : List Char) (inQ : Bool)
    (rest : List Char) :
    splitRecAux cur inQ (c :: rest) = splitRecAux (c :: cur) inQ rest := by
  rw [splitRecAux, if_neg hq, if_neg (by simp [hn])]

lemma splitRecAux_plain : ∀ {l : List Char}, (∀ c ∈ l, isSpecial c = false) →
    ∀ (cur rest : List Char),
      splitRecAux cur false (l ++ rest) = splitRecAux (l.reverse ++ cur) false rest := by
  intro l
  induction l with
  | nil => intro _ cur rest; simp
  | cons c l ih =>
    intro h cur rest
    have hc := isSpecial_elim (h c (List.mem_cons_self _ _))
    rw [List.cons_append, sra_plain hc.2.1 hc.2.2.2,
      ih (fun d hd => h d (List.mem_cons_of_mem _ hd)) (c :: cur) rest]
    congr 1
    simp

lemma splitRecAux_quoted : ∀ (l cur rest : List Char),
    splitRecAux cur true (dq l ++ '"' :: rest) =
      splitRecAux ('"' :: ((dq l).reverse ++ cur)) false rest := by
  intro l
  induction l with
  | nil =>
    intro cur rest
    rw [show dq [] = ([] : List Char) from rfl, List.nil_append, sra_quote]
    rfl
  | cons c l ih =>
    intro cur rest
    by_cases hc : c = '"'
    · subst hc
      rw [show dq ('"' :: l) = '"' :: '"' :: dq l from by simp [dq]]
      rw [List.cons_append, List.cons_append, sra_quote, sra_quote]
      rw [show (!!true) = true from rfl]
      rw [ih ('"' :: '"' :: cur) rest]
      congr 1
      simp
    · rw [show dq (c :: l) = c :: dq l from by simp [dq, hc]]
      by_cases hn : c = '\n'
      · subst hn
        rw [List.cons_append, sra_nl_true, ih ('\n' :: cur) rest]
        congr 1
        simp
      · rw [List.cons_append, sra_plain hc hn, ih (c :: cur) rest]
        congr 1
        simp

lemma splitRecAux_field (s : String) (cur rest : List Char) :
    splitRecAux cur false (fieldRaw s ++ rest) =
      splitRecAux ((fieldRaw s).reverse ++ cur) false rest := by
  rw [fieldRaw]
  by_cases hq : s.data.any isSpecial
  · rw [if_pos hq, show ('"' :: (dq s.data ++ ['"'])) ++ rest =
      '"' :: (dq s.data ++ '"' :: rest) from by simp]
    rw [sra_quote]
    rw [show (!false) = true from rfl]
    rw [splitRecAux_quoted s.data ('"' :: cur) rest]
    congr 1
    simp
  · rw [if_neg hq]
    have hq' : ∀ c ∈ s.data, isSpecial c = false := by simpa using hq
    exact splitRecAux_plain hq' cur rest

lemma splitRecAux_rowRaw : ∀ (row : List String) (cur rest : List Char),
    splitRecAux cur false (rowRaw row ++ rest) =
      splitRecAux ((rowRaw row).reverse ++ cur) false rest := by
  intro row
  induction row with
  | nil => intro cur rest; simp [rowRaw]
  | cons f fs ih =>
    intro cur rest
    cases fs with
    | nil => exact splitRecAux_field f cur rest
    | cons f' fs' =>
      rw [rowRaw_cons_cons, List.append_assoc, splitRecAux_field, List.cons_append,
        sra_plain (by decide) (by decide), ih (',' :: ((fieldRaw f).reverse ++ cur)) rest]
      congr 1
      simp

lemma splitRecAux_csvChars : ∀ rows : List (List String),
    splitRecAux [] false (csvChars rows) = rows.map (fun row => rowRaw row ++ ['\r']) := by
  intro rows
  induction rows with
  | nil => rfl
  | cons row rows ih =>
    rw [show csvChars (row :: rows) = rowRaw row ++ '\r' :: '\n' :: csvChars rows from rfl]
    rw [splitRecAux_rowRaw, sra_plain (by decide) (by decide), sra_nl_false, ih]
    congr 1
    simp

/-! ### Record-level round trip -/

lemma stripCR_concat (l : List Char) : stripCR (l ++ ['\r']) = l := by
  rw [stripCR, List.getLast?_concat, if_pos rfl, List.dropLast_concat]

lemma parseRecord_ne_nil {cs : List Char} (h : cs ≠ []) :
    parseRecord cs = (splitFieldsAux [] false cs).map unquoteField := by
  cases cs with
  | nil => exact absurd rfl h
  | cons c cs => rfl

lemma data_eq_nil_imp {s : String} (h : s.data = []) : s = "" := by
  cases s
  cases h
  rfl

lemma rowRaw_ne_nil {f : String} {fs : List String} (h : (f :: fs : List String) ≠ [""]) :
    rowRaw (f :: fs) ≠ [] := by
  cases fs with
  | nil =>
    have hf : f ≠ "" := fun hf => h (by rw [hf])
    rw [show rowRaw [f] = fieldRaw f from rfl, fieldRaw]
    by_cases hq : f.data.any isSpecial
    · rw [if_pos hq]; simp
    · rw [if_neg hq]
      intro hd
      exact hf (data_eq_nil_imp hd)
  | cons f' fs' =>
    rw [rowRaw_cons_cons]
    simp

lemma parseRecord_rowRaw {row : List String} (h : row ≠ [""]) :
    parseRecord (rowRaw row) = row := by
  cases row with
  | nil => rfl
  | cons f fs =>
    rw [parseRecord_ne_nil (rowRaw_ne_nil h), splitFieldsAux_rowRaw fs f []]
    simp only [List.reverse_nil, List.nil_append, List.map_cons, List.map_map,
      unquoteField_fieldRaw]
    congr 1
    have hpt : ∀ x ∈ fs, (unquoteField ∘ fieldRaw) x = id x :=
      fun x _ => unquoteField_fieldRaw x
    rw [List.map_congr_left hpt, List.map_id]

/-! ### `parseRows` recovers exactly the written rows -/

lemma repr_data_ne_nil (n : Nat) : (Nat.repr n).data ≠ [] := by
  obtain ⟨pre, heq, hne, _, _⟩ := toDigitsCore_spec (n + 1) n [] (by omega)
  rw [Nat.repr, Nat.toDigits, heq]
  simpa [List.asString] using hne

lemma save_rows_ne_blank (r : AnalysisResult) : ∀ row ∈ save_rows r, row ≠ [""] := by
  intro row hrow heq
  subst heq
  simp [save_rows, pairRow] at hrow

lemma parseRows_save (r : AnalysisResult) : parseRows (save_results_to_csv r) = save_rows r := by
  rw [parseRows, save_results_to_csv,
    show (⟨csvChars (save_rows r)⟩ : String).data = csvChars (save_rows r) from rfl,
    splitRecAux_csvChars, List.map_map]
  have hpt : ∀ row ∈ save_rows r,
      ((fun rec => parseRecord (stripCR rec)) ∘ fun row => rowRaw row ++ ['\r']) row = id row := by
    intro row hrow
    simp only [Function.comp_apply, id_eq, stripCR_concat]
    exact parseRecord_rowRaw (save_rows_ne_blank r row hrow)
  rw [List.map_congr_left hpt, List.map_id]

/-! ### Section parsing -/

lemma map_pairRow_ne_nil (l : List (String × Nat)) : ∀ row ∈ l.map pairRow, row ≠ [] := by
  intro row hrow
  obtain ⟨p, _, rfl⟩ := List.mem_map.mp hrow
  exact pairRow_ne_nil p

lemma parseSection_cons (hdr : String) (title : List String) (rest : List (List String)) :
    parseSection hdr title ([hdr] :: title :: rest) =
      (parsePairs (takeSection rest).1).map (fun l => (l, (takeSection rest).2)) := by
  rw [parseSection, if_pos ⟨rfl, rfl⟩]

lemma parseSection_data (hdr : String) (title : List String) (l : List (String × Nat))
    (rest : List (List String)) :
    parseSection hdr title ([hdr] :: title :: (l.map pairRow ++ [] :: rest)) =
      some (l, rest) := by
  rw [parseSection_cons, takeSection_append (map_pairRow_ne_nil l) rest,
    parsePairs_map_pairRow]
  rfl

lemma parseSection_last (hdr : String) (title : List String) (l : List (String × Nat)) :
    parseSection hdr title ([hdr] :: title :: l.map pairRow) = some (l, []) := by
  rw [parseSection_cons, takeSection_all (map_pairRow_ne_nil l), parsePairs_map_pairRow]
  rfl

/-! ### Claims C7–C9 -/

/-- C7: the export consists of exactly three sections in fixed order —
"Requests per IP", "Most Accessed Endpoint", "Suspicious Activity" — each a
single-column header row, a two-column title row, and the data rows in order,
with exactly one blank row after each section except the last (the written
rows decompose as below; blank rows number exactly two; every data row has two
columns; the last row is never blank; the file is the CRLF/comma serialization
of those rows). -/
theorem claim_c7_export_layout :
    ∀ r : AnalysisResult,
      save_rows r =
        (["Requests per IP"] :: ["IP Address", "Request Count"] :: r.ip_requests.map pairRow)
          ++ [[]]
          ++ (["Most Accessed Endpoint"] :: ["Endpoint", "Access Count"] ::
              [pairRow r.most_frequent])
          ++ [[]]
          ++ (["Suspicious Activity"] :: ["IP Address", "Failed Login Count"] ::
              r.suspicious.map pairRow) ∧
      (save_rows r).count ([] : List String) = 2 ∧
      (∀ p : String × Nat, (pairRow p).length = 2) ∧
      (save_rows r).getLast? ≠ some [] ∧
      save_results_to_csv r = ⟨csvChars (save_rows r)⟩ := by
  intro r
  have hmap : ∀ l : List (String × Nat), (l.map pairRow).count ([] : List String) = 0 := by
    intro l
    rw [List.count_eq_zero]
    intro hmem
    exact map_pairRow_ne_nil l [] hmem rfl
  refine ⟨by simp [save_rows], ?_, fun p => rfl, ?_, rfl⟩
  · rw [save_rows]
    simp [List.count_append, List.count_cons, hmap, pairRow_ne_nil r.most_frequent]
  · obtain ⟨pre, hshape⟩ : ∃ pre, save_rows r = pre ++
        (["Suspicious Activity"] :: ["IP Address", "Failed Login Count"] ::
          r.suspicious.map pairRow) :=
      ⟨[["Requests per IP"], ["IP Address", "Request Count"]] ++ r.ip_requests.map pairRow
        ++ [[], ["Most Accessed Endpoint"], ["Endpoint", "Access Count"],
            pairRow r.most_frequent, []], by simp [save_rows]⟩
    rcases List.eq_nil_or_concat r.suspicious with hs | ⟨l', a, hs⟩
    · rw [hshape, hs]
      simp [List.getLast?_append]
    · rw [hshape, hs]
      have hsplit : pre ++ ["Suspicious Activity"] :: ["IP Address", "Failed Login Count"] ::
          (l'.concat a).map pairRow =
          (pre ++ ["Suspicious Activity"] :: ["IP Address", "Failed Login Count"] ::
            l'.map pairRow) ++ [pairRow a] := by
        simp [List.map_concat]
      rw [hsplit, List.getLast?_concat]
      simp [pairRow]

/-- C7 witness: the layout decomposition at a concrete Analysis Result. -/
theorem claim_c7_witness :
    save_rows ⟨[("1.1.1.1", 2)], ("/a", 2), []⟩ =
      (["Requests per IP"] :: ["IP Address", "Request Count"] ::
        [("1.1.1.1", 2)].map pairRow)
        ++ [[]]
        ++ (["Most Accessed Endpoint"] :: ["Endpoint", "Access Count"] ::
            [pairRow ("/a", 2)])
        ++ [[]]
        ++ (["Suspicious Activity"] :: ["IP Address", "Failed Login Count"] ::
            ([] : List (String × Nat)).map pairRow) :=
  (claim_c7_export_layout ⟨[("1.1.1.1", 2)], ("/a", 2), []⟩).1

/-- C8: exporting an Analysis Result and re-parsing the three sections of the
written text recovers the same identifier/count sequence, the same top
endpoint pair, and the same suspicious sequence (hence the same set). -/
theorem claim_c8_round_trip : ∀ r : AnalysisResult,
    parseAnalysisCSV (save_results_to_csv r) = some r := by
  intro r
  obtain ⟨ips, mf, sus⟩ := r
  have h3 : parseSection "Suspicious Activity" ["IP Address", "Failed Login Count"]
      (["Suspicious Activity"] :: ["IP Address", "Failed Login Count"] :: sus.map pairRow) =
      some (sus, []) := parseSection_last _ _ _
  have h2 : parseSection "Most Accessed Endpoint" ["Endpoint", "Access Count"]
      (["Most Accessed Endpoint"] :: ["Endpoint", "Access Count"] ::
        ([mf].map pairRow ++ [] :: (["Suspicious Activity"] ::
          ["IP Address", "Failed Login Count"] :: sus.map pairRow))) =
      some ([mf], ["Suspicious Activity"] :: ["IP Address", "Failed Login Count"] ::
        sus.map pairRow) := parseSection_data _ _ _ _
  have h1 : parseSection "Requests per IP" ["IP Address", "Request Count"]
      (save_rows ⟨ips, mf, sus⟩) =
      some (ips, ["Most Accessed Endpoint"] :: ["Endpoint", "Access Count"] ::
        ([mf].map pairRow ++ [] :: (["Suspicious Activity"] ::
          ["IP Address", "Failed Login Count"] :: sus.map pairRow))) := by
    have hshape : save_rows ⟨ips, mf, sus⟩ =
        ["Requests per IP"] :: ["IP Address", "Request Count"] ::
          (ips.map pairRow ++ [] :: (["Most Accessed Endpoint"] ::
            ["Endpoint", "Access Count"] :: ([mf].map pairRow ++ [] ::
              (["Suspicious Activity"] :: ["IP Address", "Failed Login Count"] ::
                sus.map pairRow)))) := by
      simp [save_rows]
    rw [hshape]
    exact parseSection_data _ _ _ _
  rw [parseAnalysisCSV, parseRows_save]
  simp only [h1, h2, h3]

/-- C9: the pipeline followed by the export is a function of the input file's
contents and the threshold alone — two runs over equal contents and equal
thresholds produce byte-identical export text. -/
theorem claim_c9_deterministic :
    ∀ (fs₁ fs₂ : String → Option (List String)) (p₁ p₂ : String) (t₁ t₂ : Int),
      fs₁ p₁ = fs₂ p₂ → t₁ = t₂ →
      save_results_to_csv (runPipeline fs₁ p₁ t₁) =
        save_results_to_csv (runPipeline fs₂ p₂ t₂) := by
  intro fs₁ fs₂ p₁ p₂ t₁ t₂ h ht
  rw [runPipeline, runPipeline, h, ht]

/-- C9 witness: the same contents behind two different paths, same threshold. -/
theorem claim_c9_witness :
    save_results_to_csv (runPipeline (fun _ => some ["a 401"]) "x.log" 10) =
      save_results_to_csv (runPipeline (fun _ => some ["a 401"]) "y.log" 10) :=
  claim_c9_deterministic _ _ "x.log" "y.log" 10 10 rfl rfl

end LogAnalysis
